import Mathlib

/-! Verification of extmilter: the archive walker of `archive.go`.

A shallow embedding of `AllowPayload`, `AllowTarPayload`, `AllowZipPayload` and
`AllowRarPayload`, and the properties of the admission decision.

Modelling decisions:

* The three archive parsers (`archive/tar`, `archive/zip`, `rardecode`) are
  library code.  A `Stream` is therefore described by what each parser yields
  when it is run on the stream from offset 0: the successive results of
  `Next()`, of `f.Open()` and of `ioutil.ReadAll`.  The bytes returned by
  `ReadAll` are again a `Stream`, because the walkers hand them to
  `AllowPayload` through `strings.NewReader(string(slurp))`.
* `Stream` is an inductive type: the nesting of archives is finite.  A stream
  that contains itself as an entry, on which the Go recursion does not return,
  has no representation here.
* A Go `error` is `Option GoError`; `none` is `nil`.  `io.EOF` returned by
  `Next()` is the `eof` constructor of the iterators; every other parser error
  is `GoError.other`.  The parsers cannot return `EPayloadNotAllowed`, a value of
  package `main`.
* `AllowFilename` (declared in another file of the package) and the case table
  of `unicode.ToLower` for runes above `MaxASCII` are parameters.
* Names are sequences of runes; `filepath.Ext` scans for the ASCII bytes `.`
  and `/`, which occur in UTF-8 only as those runes.  POSIX path separators.
-/

namespace Extmilter

/-! ## Data model -/

/-- Non-nil values of Go's `error` that the walkers distinguish. -/
inductive GoError where
  | EPayloadNotAllowed
  | other (msg : String)
deriving DecidableEq, Repr

mutual
/-- Contents of a `*strings.Reader`, given by the outcome of `tar.NewReader`,
`zip.NewReader` and `rardecode.NewReader` on it. -/
inductive Stream where
  | mk (tar : TarReader) (zip : ZipReader) (rar : RarReader)
/-- Successive results of `reader.Next()` on a `*tar.Reader`; for an entry,
`slurp` and `rerr` are the two results of `ioutil.ReadAll(reader)`. -/
inductive TarReader where
  | eof
  | fail (err : String)
  | next (name : String) (slurp : Stream) (rerr : Option String) (rest : TarReader)
/-- Result of `zip.NewReader(r, int64(r.Len()))`: an error or `reader.File`. -/
inductive ZipReader where
  | fail (err : String)
  | files (fs : ZipFiles)
/-- List `reader.File`.  For each file either `f.Open()` fails with `err`, or it
succeeds and `ioutil.ReadAll(payload)` returns `slurp` and `rerr`. -/
inductive ZipFiles where
  | nil
  | unopened (name : String) (err : String) (rest : ZipFiles)
  | opened (name : String) (slurp : Stream) (rerr : Option String) (rest : ZipFiles)
/-- Result of `rardecode.NewReader(r, "")`: an error or a reader. -/
inductive RarReader where
  | fail (err : String)
  | volume (it : RarIter)
/-- Successive results of `rr.Next()` on a `*rardecode.Reader`; `slurp` and
`rerr` are the two results of `ioutil.ReadAll(rr)`. -/
inductive RarIter where
  | eof
  | fail (err : String)
  | next (name : String) (slurp : Stream) (rerr : Option String) (rest : RarIter)
end

/-! ## Library functions used by the walkers -/

/-- Go `unicode.ToLower`: ASCII is handled inline (`A`..`Z` are shifted by
`'a' - 'A'`), every other rune goes through the case table. -/
def unicodeToLower (table : Char → Char) (r : Char) : Char :=
  if r.toNat ≤ 0x7F then
    if 'A'.toNat ≤ r.toNat ∧ r.toNat ≤ 'Z'.toNat then
      Char.ofNat (r.toNat + ('a'.toNat - 'A'.toNat))
    else r
  else table r

/-- Go `strings.ToLower`: `unicode.ToLower` applied to every rune. -/
def ToLower (table : Char → Char) (s : String) : String :=
  String.mk (s.data.map (unicodeToLower table))

/-- Loop of `filepath.Ext`:
`for i := len(path) - 1; i >= 0 && !os.IsPathSeparator(path[i]); i--`
with body `if path[i] == '.' then return path[i:]`.  The argument is `i + 1`. -/
def extLoop (path : List Char) : Nat → List Char
  | 0 => []
  | i + 1 =>
    if path[i]? = some '/' then []
    else if path[i]? = some '.' then path.drop i
    else extLoop path i

/-- Go `filepath.Ext`. -/
def Ext (path : String) : String :=
  String.mk (extLoop path.data path.data.length)

/-- Error result of `r.Seek(offset, 0)` on a `*strings.Reader`: the absolute
position `offset` is refused only when negative. -/
def seekStart (offset : Int) : Option GoError :=
  if offset < 0 then some (.other "strings.Reader.Seek: negative position") else none

/-! ## The dispatcher and the walkers -/

/-- Loop `for _, Payload := range PayloadFuncList` of `AllowPayload`
(archive.go 22-36).  Each element pairs the error of `r.Seek(0, 0)` with the
error of `Payload(r)`. -/
def PayloadLoop : List (Option GoError × Option GoError) → Option GoError
  | [] => none
  | (seek, err) :: rest =>
    match seek with
    | some e => some e
    | none =>
      match err with
      | none => none
      | some e => if e = .EPayloadNotAllowed then some e else PayloadLoop rest

section Walkers

variable (table : Char → Char) (AllowFilename : String → Bool)

mutual
/-- Function `AllowPayload` (archive.go 15-37). -/
def AllowPayload : Stream → Option GoError
  | .mk tar zip rar =>
    PayloadLoop [(seekStart 0, tarLoop tar), (seekStart 0, zipWalk zip), (seekStart 0, rarWalk rar)]
/-- Loop of `AllowTarPayload` (archive.go 44-69). -/
def tarLoop : TarReader → Option GoError
  | .eof => none
  | .fail err => some (.other err)
  | .next name slurp rerr rest =>
    if !AllowFilename (Ext (ToLower table name)) then some .EPayloadNotAllowed
    else
      match rerr with
      | some _ => tarLoop rest
      | none =>
        match AllowPayload slurp with
        | some err => some err
        | none => tarLoop rest
/-- Body of `AllowZipPayload` after `zip.NewReader` (archive.go 75-100). -/
def zipWalk : ZipReader → Option GoError
  | .fail err => some (.other err)
  | .files fs => zipRange fs
/-- Loop `for _, f := range reader.File` of `AllowZipPayload` (archive.go 80-98).
The error of `ioutil.ReadAll(payload)` is not looked at. -/
def zipRange : ZipFiles → Option GoError
  | .nil => none
  | .unopened name _ rest =>
    if !AllowFilename (Ext (ToLower table name)) then some .EPayloadNotAllowed
    else zipRange rest
  | .opened name slurp _ rest =>
    if !AllowFilename (Ext (ToLower table name)) then some .EPayloadNotAllowed
    else
      match AllowPayload slurp with
      | some err => some err
      | none => zipRange rest
/-- Body of `AllowRarPayload` after `rardecode.NewReader` (archive.go 107-137). -/
def rarWalk : RarReader → Option GoError
  | .fail err => some (.other err)
  | .volume it => rarLoop it
/-- Loop of `AllowRarPayload` (archive.go 112-135). -/
def rarLoop : RarIter → Option GoError
  | .eof => none
  | .fail err => some (.other err)
  | .next name slurp rerr rest =>
    if !AllowFilename (Ext (ToLower table name)) then some .EPayloadNotAllowed
    else
      match rerr with
      | some _ => rarLoop rest
      | none =>
        match AllowPayload slurp with
        | some err => some err
        | none => rarLoop rest
end

end Walkers

/-- Call `tar.NewReader(r)`. -/
def tarNewReader : Stream → TarReader
  | .mk tar _ _ => tar

/-- Call `zip.NewReader(r, int64(r.Len()))`. -/
def zipNewReader : Stream → ZipReader
  | .mk _ zip _ => zip

/-- Call `rardecode.NewReader(r, "")`. -/
def rarNewReader : Stream → RarReader
  | .mk _ _ rar => rar

/-- Function `AllowTarPayload` (archive.go 41-70). -/
def AllowTarPayload (table : Char → Char) (AllowFilename : String → Bool) (r : Stream) :
    Option GoError :=
  tarLoop table AllowFilename (tarNewReader r)

/-- Function `AllowZipPayload` (archive.go 74-101). -/
def AllowZipPayload (table : Char → Char) (AllowFilename : String → Bool) (r : Stream) :
    Option GoError :=
  zipWalk table AllowFilename (zipNewReader r)

/-- Function `AllowRarPayload` (archive.go 105-138). -/
def AllowRarPayload (table : Char → Char) (AllowFilename : String → Bool) (r : Stream) :
    Option GoError :=
  rarWalk table AllowFilename (rarNewReader r)

/-! ## The walk with a log of the names it checks

The same code, each function returning next to its error the names passed to
`AllowFilename` (after `ToLower` and `Ext`), in the order of the calls. -/

/-- Loop of `AllowPayload` on logged walker results: a walker that was run
contributes its log, a walker that was never run none. -/
def PayloadLoopLog :
    List (Option GoError × (Option GoError × List String)) → Option GoError × List String
  | [] => (none, [])
  | (seek, (err, log)) :: rest =>
    match seek with
    | some e => (some e, [])
    | none =>
      match err with
      | none => (none, log)
      | some e =>
        if e = .EPayloadNotAllowed then (some e, log)
        else ((PayloadLoopLog rest).1, log ++ (PayloadLoopLog rest).2)

section WalkersLog

variable (table : Char → Char) (AllowFilename : String → Bool)

mutual
/-- Logged `AllowPayload`. -/
def AllowPayloadLog : Stream → Option GoError × List String
  | .mk tar zip rar =>
    PayloadLoopLog
      [(seekStart 0, tarLoopLog tar), (seekStart 0, zipWalkLog zip), (seekStart 0, rarWalkLog rar)]
/-- Logged loop of `AllowTarPayload`. -/
def tarLoopLog : TarReader → Option GoError × List String
  | .eof => (none, [])
  | .fail err => (some (.other err), [])
  | .next name slurp rerr rest =>
    if !AllowFilename (Ext (ToLower table name)) then (some .EPayloadNotAllowed, [name])
    else
      match rerr with
      | some _ => ((tarLoopLog rest).1, name :: (tarLoopLog rest).2)
      | none =>
        match (AllowPayloadLog slurp).1 with
        | some err => (some err, name :: (AllowPayloadLog slurp).2)
        | none => ((tarLoopLog rest).1, name :: ((AllowPayloadLog slurp).2 ++ (tarLoopLog rest).2))
/-- Logged body of `AllowZipPayload`. -/
def zipWalkLog : ZipReader → Option GoError × List String
  | .fail err => (some (.other err), [])
  | .files fs => zipRangeLog fs
/-- Logged loop of `AllowZipPayload`. -/
def zipRangeLog : ZipFiles → Option GoError × List String
  | .nil => (none, [])
  | .unopened name _ rest =>
    if !AllowFilename (Ext (ToLower table name)) then (some .EPayloadNotAllowed, [name])
    else ((zipRangeLog rest).1, name :: (zipRangeLog rest).2)
  | .opened name slurp _ rest =>
    if !AllowFilename (Ext (ToLower table name)) then (some .EPayloadNotAllowed, [name])
    else
      match (AllowPayloadLog slurp).1 with
      | some err => (some err, name :: (AllowPayloadLog slurp).2)
      | none => ((zipRangeLog rest).1, name :: ((AllowPayloadLog slurp).2 ++ (zipRangeLog rest).2))
/-- Logged body of `AllowRarPayload`. -/
def rarWalkLog : RarReader → Option GoError × List String
  | .fail err => (some (.other err), [])
  | .volume it => rarLoopLog it
/-- Logged loop of `AllowRarPayload`. -/
def rarLoopLog : RarIter → Option GoError × List String
  | .eof => (none, [])
  | .fail err => (some (.other err), [])
  | .next name slurp rerr rest =>
    if !AllowFilename (Ext (ToLower table name)) then (some .EPayloadNotAllowed, [name])
    else
      match rerr with
      | some _ => ((rarLoopLog rest).1, name :: (rarLoopLog rest).2)
      | none =>
        match (AllowPayloadLog slurp).1 with
        | some err => (some err, name :: (AllowPayloadLog slurp).2)
        | none => ((rarLoopLog rest).1, name :: ((AllowPayloadLog slurp).2 ++ (rarLoopLog rest).2))
end

/-- Names of the entries visited during `AllowPayload`, at every depth. -/
def visited (r : Stream) : List String :=
  (AllowPayloadLog table AllowFilename r).2

end WalkersLog

/-! ## Entries of a stream, independent of the policy -/

mutual
/-- Names of all entries of the stream under each of the three parsers, and of
the entries of every body that was read without error. -/
def entryNames : Stream → List String
  | .mk tar zip rar => tarNames tar ++ (zipNames zip ++ rarNames rar)
/-- Entry names yielded by the TAR iterator. -/
def tarNames : TarReader → List String
  | .eof => []
  | .fail _ => []
  | .next name slurp rerr rest =>
    match rerr with
    | some _ => name :: tarNames rest
    | none => name :: (entryNames slurp ++ tarNames rest)
/-- Entry names of the ZIP reader. -/
def zipNames : ZipReader → List String
  | .fail _ => []
  | .files fs => zipFileNames fs
/-- Entry names of `reader.File`. -/
def zipFileNames : ZipFiles → List String
  | .nil => []
  | .unopened name _ rest => name :: zipFileNames rest
  | .opened name slurp rerr rest =>
    match rerr with
    | some _ => name :: zipFileNames rest
    | none => name :: (entryNames slurp ++ zipFileNames rest)
/-- Entry names of the RAR reader. -/
def rarNames : RarReader → List String
  | .fail _ => []
  | .volume it => rarIterNames it
/-- Entry names yielded by the RAR iterator. -/
def rarIterNames : RarIter → List String
  | .eof => []
  | .fail _ => []
  | .next name slurp rerr rest =>
    match rerr with
    | some _ => name :: rarIterNames rest
    | none => name :: (entryNames slurp ++ rarIterNames rest)
end

/-- The TAR iterator ends in an error other than `io.EOF`. -/
def tarFails : TarReader → Bool
  | .eof => false
  | .fail _ => true
  | .next _ _ _ rest => tarFails rest

/-- Call `zip.NewReader` returns an error: the ZIP walker has no other way to
return a parser error. -/
def zipFails : ZipReader → Bool
  | .fail _ => true
  | .files _ => false

mutual
/-- Names of the entries in the dispatcher's path: those of the TAR parser; those
of the ZIP parser when the TAR iterator ends in an error; those of the RAR parser
when moreover `zip.NewReader` fails; and, in each, those in the path of every
body that was read without error. -/
def pathNames : Stream → List String
  | .mk tar zip rar =>
    tarPath tar ++
      (if tarFails tar then zipPath zip ++ (if zipFails zip then rarPath rar else []) else [])
/-- Path names of the TAR iterator. -/
def tarPath : TarReader → List String
  | .eof => []
  | .fail _ => []
  | .next name slurp rerr rest =>
    match rerr with
    | some _ => name :: tarPath rest
    | none => name :: (pathNames slurp ++ tarPath rest)
/-- Path names of the ZIP reader. -/
def zipPath : ZipReader → List String
  | .fail _ => []
  | .files fs => zipFilesPath fs
/-- Path names of `reader.File`. -/
def zipFilesPath : ZipFiles → List String
  | .nil => []
  | .unopened name _ rest => name :: zipFilesPath rest
  | .opened name slurp rerr rest =>
    match rerr with
    | some _ => name :: zipFilesPath rest
    | none => name :: (pathNames slurp ++ zipFilesPath rest)
/-- Path names of the RAR reader. -/
def rarPath : RarReader → List String
  | .fail _ => []
  | .volume it => rarIterPath it
/-- Path names of the RAR iterator. -/
def rarIterPath : RarIter → List String
  | .eof => []
  | .fail _ => []
  | .next name slurp rerr rest =>
    match rerr with
    | some _ => name :: rarIterPath rest
    | none => name :: (pathNames slurp ++ rarIterPath rest)
end

/-! ## Building streams -/

/-- The three registered formats. -/
inductive Format where
  | TAR
  | ZIP
  | RAR
deriving DecidableEq, Repr

/-- A stream none of the three parsers accepts, such as the text `hello`. -/
def plainStream : Stream :=
  .mk (.fail "unexpected EOF") (.fail "zip: not a valid zip file")
    (.fail "rardecode: RAR signature not found")

/-- An archive of the given format with no entry; the two other parsers reject it. -/
def emptyArchive : Format → Stream
  | .TAR => .mk .eof (.fail "zip: not a valid zip file") (.fail "rardecode: RAR signature not found")
  | .ZIP => .mk (.fail "archive/tar: invalid tar header") (.files .nil)
      (.fail "rardecode: RAR signature not found")
  | .RAR => .mk (.fail "archive/tar: invalid tar header") (.fail "zip: not a valid zip file")
      (.volume .eof)

/-- An archive of the given format whose single entry `name` has the body
`inner`, read without error; the two other parsers reject it. -/
def wrap (f : Format) (name : String) (inner : Stream) : Stream :=
  match f with
  | .TAR => .mk (.next name inner none .eof) (.fail "zip: not a valid zip file")
      (.fail "rardecode: RAR signature not found")
  | .ZIP => .mk (.fail "archive/tar: invalid tar header") (.files (.opened name inner none .nil))
      (.fail "rardecode: RAR signature not found")
  | .RAR => .mk (.fail "archive/tar: invalid tar header") (.fail "zip: not a valid zip file")
      (.volume (.next name inner none .eof))

/-- Archives nested inside archives: the first layer is the outermost. -/
def nest : List (Format × String) → Stream → Stream
  | [], core => core
  | (f, name) :: layers, core => wrap f name (nest layers core)

/-- Stream of `n + 1` ZIP archives, each but the innermost holding the next one
as its single entry `nested.zip`, the innermost empty. -/
def nestedZips (n : Nat) : Stream :=
  nest (List.replicate n (Format.ZIP, "nested.zip")) (emptyArchive .ZIP)

/-- A TAR iterator yielding the given entries (name, bytes read, read error) and
then `last`. -/
def tarEntries : List (String × Stream × Option String) → TarReader → TarReader
  | [], last => last
  | (name, slurp, rerr) :: es, last => .next name slurp rerr (tarEntries es last)

/-- A RAR iterator yielding the given entries (name, bytes read, read error) and
then `last`. -/
def rarEntries : List (String × Stream × Option String) → RarIter → RarIter
  | [], last => last
  | (name, slurp, rerr) :: es, last => .next name slurp rerr (rarEntries es last)

/-- Policy of the end-to-end scenarios: reject `.exe`, `.js` and `.scr`. -/
def scenarioPolicy (ext : String) : Bool :=
  !(ext ∈ [".exe", ".js", ".scr"])

/-- Scenario E3: a TAR holding `inner.zip`, which holds `payload.JS`. -/
def scenarioE3 : Stream :=
  wrap .TAR "inner.zip" (wrap .ZIP "payload.JS" plainStream)

/-- A ZIP with one entry `data.bin` that opens, whose decoder returns the bytes of
a TAR holding `setup.exe` and then fails with a checksum error. -/
def zipBadChecksum : Stream :=
  .mk (.fail "archive/tar: invalid tar header")
    (.files (.opened "data.bin" (wrap .TAR "setup.exe" plainStream) (some "zip: checksum error") .nil))
    (.fail "rardecode: RAR signature not found")

/-- The same entry in a TAR: `ReadAll` returns the same bytes and an error. -/
def tarBadRead : Stream :=
  .mk (.next "data.bin" (wrap .TAR "setup.exe" plainStream) (some "unexpected EOF") .eof)
    (.fail "zip: not a valid zip file") (.fail "rardecode: RAR signature not found")

/-- A stream that the TAR parser reads as an archive without entries and the ZIP
parser as an archive holding `setup.exe`. -/
def tarZipPolyglot : Stream :=
  .mk .eof (.files (.opened "setup.exe" plainStream none .nil))
    (.fail "rardecode: RAR signature not found")

/-! ## The specification's extension -/

/-- Final path component, in the spec's words the part after the last `/`. -/
def finalComponent (name : List Char) : List Char :=
  (name.reverse.takeWhile (fun c => c != '/')).reverse

/-- Specification `extension_of`: the substring after the last `.` in the
final path component, including the `.`, or the empty string if none exists. -/
def extension_of (name : String) : String :=
  let comp := finalComponent name.data
  if '.' ∈ comp then String.mk ('.' :: (comp.reverse.takeWhile (fun c => c != '.')).reverse)
  else ""

/-- Specification `lowercase(extension_of(name))`. -/
def specExt (table : Char → Char) (name : String) : String :=
  ToLower table (extension_of name)

/-! ## The dispatcher of the specification -/

/-- A walker result that ends the dispatch: `nil` (ADMIT) or `EPayloadNotAllowed`
(REJECT_BLACKLISTED); any other error is UNRECOGNISED or MALFORMED. -/
def isVerdict : Option GoError → Bool
  | none => true
  | some .EPayloadNotAllowed => true
  | some (.other _) => false

/-- Dispatcher of the specification (4.1): the verdict of the first walker, in
order, that returns one; ADMIT if no walker does. -/
def dispatchReference (results : List (Option GoError)) : Option GoError :=
  match results.find? isVerdict with
  | some verdict => verdict
  | none => none

/-! ## Predicates on the log -/

/-- Some name of the list is refused by the policy. -/
def Refused (table : Char → Char) (AllowFilename : String → Bool) (log : List String) : Prop :=
  ∃ n ∈ log, AllowFilename (Ext (ToLower table n)) = false

/-- No name of the list other than its last one is refused by the policy. -/
def Early (table : Char → Char) (AllowFilename : String → Bool) (log : List String) : Prop :=
  ¬ Refused table AllowFilename log.dropLast

/-- The log agrees with the code: same error; the error is `EPayloadNotAllowed`
exactly when a logged name is refused by the policy; only the last logged name
can be a refused one. -/
def LogOK (table : Char → Char) (AllowFilename : String → Bool)
    (x : Option GoError × List String) (e : Option GoError) : Prop :=
  x.1 = e ∧ (x.1 = some .EPayloadNotAllowed ↔ Refused table AllowFilename x.2) ∧
    Early table AllowFilename x.2

/-! ## Lemmas on the log -/

theorem Refused_nil (table : Char → Char) (AllowFilename : String → Bool) :
    Refused table AllowFilename [] ↔ False := by
  simp [Refused]

theorem Refused_cons (table : Char → Char) (AllowFilename : String → Bool) (n : String)
    (l : List String) :
    Refused table AllowFilename (n :: l) ↔
      (AllowFilename (Ext (ToLower table n)) = false ∨ Refused table AllowFilename l) := by
  simp [Refused]

theorem Refused_append (table : Char → Char) (AllowFilename : String → Bool)
    (l₁ l₂ : List String) :
    Refused table AllowFilename (l₁ ++ l₂) ↔
      (Refused table AllowFilename l₁ ∨ Refused table AllowFilename l₂) := by
  simp only [Refused, List.mem_append]
  constructor
  · rintro ⟨n, h | h, hn⟩
    · exact Or.inl ⟨n, h, hn⟩
    · exact Or.inr ⟨n, h, hn⟩
  · rintro (⟨n, h, hn⟩ | ⟨n, h, hn⟩)
    · exact ⟨n, Or.inl h, hn⟩
    · exact ⟨n, Or.inr h, hn⟩

theorem Refused_dropLast (table : Char → Char) (AllowFilename : String → Bool)
    (l : List String) (h : Refused table AllowFilename l.dropLast) :
    Refused table AllowFilename l := by
  obtain ⟨n, hn, hb⟩ := h
  exact ⟨n, List.mem_of_mem_dropLast hn, hb⟩

theorem Early_nil (table : Char → Char) (AllowFilename : String → Bool) :
    Early table AllowFilename [] := by
  simp [Early, Refused_nil]

theorem Early_single (table : Char → Char) (AllowFilename : String → Bool) (n : String) :
    Early table AllowFilename [n] := by
  simp [Early, Refused_nil]

theorem Early_cons (table : Char → Char) (AllowFilename : String → Bool) (n : String)
    (l : List String) (hn : AllowFilename (Ext (ToLower table n)) = true)
    (hl : Early table AllowFilename l) : Early table AllowFilename (n :: l) := by
  cases l with
  | nil => exact Early_single table AllowFilename n
  | cons a l =>
    unfold Early at hl ⊢
    rw [List.dropLast_cons₂, Refused_cons]
    simp [hn, hl]

theorem Early_append (table : Char → Char) (AllowFilename : String → Bool)
    (l₁ l₂ : List String) (h₁ : ¬ Refused table AllowFilename l₁)
    (h₂ : Early table AllowFilename l₂) : Early table AllowFilename (l₁ ++ l₂) := by
  cases l₂ with
  | nil =>
    intro h
    rw [List.append_nil] at h
    exact h₁ (Refused_dropLast table AllowFilename l₁ h)
  | cons a l =>
    unfold Early at h₂ ⊢
    rw [List.dropLast_append_cons, Refused_append]
    simp [h₁, h₂]

theorem seekStart_zero : seekStart 0 = none := by decide

theorem LogOK_payloadLoop (table : Char → Char) (AllowFilename : String → Bool)
    (a b c : Option GoError × List String) (ea eb ec : Option GoError)
    (ha : LogOK table AllowFilename a ea) (hb : LogOK table AllowFilename b eb)
    (hc : LogOK table AllowFilename c ec) :
    LogOK table AllowFilename (PayloadLoopLog [(none, a), (none, b), (none, c)])
      (PayloadLoop [(none, ea), (none, eb), (none, ec)]) := by
  obtain ⟨a1, a2⟩ := a
  obtain ⟨b1, b2⟩ := b
  obtain ⟨c1, c2⟩ := c
  obtain ⟨ha1, ha2, ha3⟩ := ha
  obtain ⟨hb1, hb2, hb3⟩ := hb
  obtain ⟨hc1, hc2, hc3⟩ := hc
  simp only at ha1 hb1 hc1 ha2 hb2 hc2 ha3 hb3 hc3
  subst ha1 hb1 hc1
  unfold LogOK
  rcases a1 with _ | (_ | ma)
  · have ha4 : ¬ Refused table AllowFilename a2 := by simpa using ha2
    simp [PayloadLoopLog, PayloadLoop, ha4, ha3]
  · have ha4 : Refused table AllowFilename a2 := by simpa using ha2
    simp [PayloadLoopLog, PayloadLoop, ha4, ha3]
  · have ha4 : ¬ Refused table AllowFilename a2 := by simpa using ha2
    rcases b1 with _ | (_ | mb)
    · have hb4 : ¬ Refused table AllowFilename b2 := by simpa using hb2
      simp [PayloadLoopLog, PayloadLoop, Refused_append, ha4, hb4,
        Early_append table AllowFilename a2 b2 ha4 hb3]
    · have hb4 : Refused table AllowFilename b2 := by simpa using hb2
      simp [PayloadLoopLog, PayloadLoop, Refused_append, ha4, hb4,
        Early_append table AllowFilename a2 b2 ha4 hb3]
    · have hb4 : ¬ Refused table AllowFilename b2 := by simpa using hb2
      rcases c1 with _ | (_ | mc)
      · have hc4 : ¬ Refused table AllowFilename c2 := by simpa using hc2
        simp [PayloadLoopLog, PayloadLoop, Refused_append, ha4, hb4, hc4,
          Early_append table AllowFilename a2 _ ha4 (Early_append table AllowFilename b2 c2 hb4 hc3)]
      · have hc4 : Refused table AllowFilename c2 := by simpa using hc2
        simp [PayloadLoopLog, PayloadLoop, Refused_append, ha4, hb4, hc4,
          Early_append table AllowFilename a2 _ ha4 (Early_append table AllowFilename b2 c2 hb4 hc3)]
      · have hc4 : ¬ Refused table AllowFilename c2 := by simpa using hc2
        simp [PayloadLoopLog, PayloadLoop, Refused_append, ha4, hb4, hc4,
          Early_append table AllowFilename a2 _ ha4 (Early_append table AllowFilename b2 c2 hb4 hc3)]

/-- One round of a walker loop on an entry whose body is handed to `AllowPayload`. -/
theorem LogOK_entry (table : Char → Char) (AllowFilename : String → Bool) (name : String)
    (s r : Option GoError × List String) (es er : Option GoError) :
    LogOK table AllowFilename s es → LogOK table AllowFilename r er →
    LogOK table AllowFilename
      (if !AllowFilename (Ext (ToLower table name)) then (some .EPayloadNotAllowed, [name])
       else
        match s.1 with
        | some err => (some err, name :: s.2)
        | none => (r.1, name :: (s.2 ++ r.2)))
      (if !AllowFilename (Ext (ToLower table name)) then some .EPayloadNotAllowed
       else
        match es with
        | some err => some err
        | none => er) := by
  intro hs hr
  obtain ⟨s1, s2⟩ := s
  obtain ⟨r1, r2⟩ := r
  obtain ⟨hs1, hs2, hs3⟩ := hs
  obtain ⟨hr1, hr2, hr3⟩ := hr
  simp only at hs1 hr1 hs2 hr2 hs3 hr3
  subst hs1 hr1
  unfold LogOK
  cases hp : AllowFilename (Ext (ToLower table name))
  · simp [Refused_cons, Refused_nil, hp, Early_single]
  · rcases s1 with _ | (_ | ms)
    · have hs4 : ¬ Refused table AllowFilename s2 := by simpa using hs2
      simp [Refused_cons, Refused_append, hp, hs4, hr2,
        Early_cons table AllowFilename name _ hp (Early_append table AllowFilename s2 r2 hs4 hr3)]
    · have hs4 : Refused table AllowFilename s2 := by simpa using hs2
      simp [Refused_cons, hp, hs4, Early_cons table AllowFilename name _ hp hs3]
    · have hs4 : ¬ Refused table AllowFilename s2 := by simpa using hs2
      simp [Refused_cons, hp, hs4, Early_cons table AllowFilename name _ hp hs3]

/-- One round of a walker loop on an entry that is skipped after the name check. -/
theorem LogOK_skip (table : Char → Char) (AllowFilename : String → Bool) (name : String)
    (r : Option GoError × List String) (er : Option GoError) :
    LogOK table AllowFilename r er →
    LogOK table AllowFilename
      (if !AllowFilename (Ext (ToLower table name)) then (some .EPayloadNotAllowed, [name])
       else (r.1, name :: r.2))
      (if !AllowFilename (Ext (ToLower table name)) then some .EPayloadNotAllowed
       else er) := by
  intro hr
  obtain ⟨r1, r2⟩ := r
  obtain ⟨hr1, hr2, hr3⟩ := hr
  simp only at hr1 hr2 hr3
  subst hr1
  unfold LogOK
  cases hp : AllowFilename (Ext (ToLower table name))
  · simp [Refused_cons, Refused_nil, hp, Early_single]
  · simp [Refused_cons, hp, hr2, Early_cons table AllowFilename name _ hp hr3]

mutual
theorem AllowPayloadLog_ok (table : Char → Char) (AllowFilename : String → Bool) :
    ∀ s : Stream, LogOK table AllowFilename (AllowPayloadLog table AllowFilename s)
      (AllowPayload table AllowFilename s)
  | .mk tar zip rar => by
    rw [AllowPayloadLog, AllowPayload, seekStart_zero]
    exact LogOK_payloadLoop table AllowFilename _ _ _ _ _ _
      (tarLoopLog_ok table AllowFilename tar) (zipWalkLog_ok table AllowFilename zip)
      (rarWalkLog_ok table AllowFilename rar)
theorem tarLoopLog_ok (table : Char → Char) (AllowFilename : String → Bool) :
    ∀ t : TarReader, LogOK table AllowFilename (tarLoopLog table AllowFilename t)
      (tarLoop table AllowFilename t)
  | .eof => by simp [tarLoopLog, tarLoop, LogOK, Refused_nil, Early_nil]
  | .fail err => by simp [tarLoopLog, tarLoop, LogOK, Refused_nil, Early_nil]
  | .next name slurp (some e) rest => by
    rw [tarLoopLog, tarLoop]
    exact LogOK_skip table AllowFilename name _ _ (tarLoopLog_ok table AllowFilename rest)
  | .next name slurp none rest => by
    rw [tarLoopLog, tarLoop]
    exact LogOK_entry table AllowFilename name _ _ _ _
      (AllowPayloadLog_ok table AllowFilename slurp) (tarLoopLog_ok table AllowFilename rest)
theorem zipWalkLog_ok (table : Char → Char) (AllowFilename : String → Bool) :
    ∀ z : ZipReader, LogOK table AllowFilename (zipWalkLog table AllowFilename z)
      (zipWalk table AllowFilename z)
  | .fail err => by simp [zipWalkLog, zipWalk, LogOK, Refused_nil, Early_nil]
  | .files fs => by
    rw [zipWalkLog, zipWalk]
    exact zipRangeLog_ok table AllowFilename fs
theorem zipRangeLog_ok (table : Char → Char) (AllowFilename : String → Bool) :
    ∀ fs : ZipFiles, LogOK table AllowFilename (zipRangeLog table AllowFilename fs)
      (zipRange table AllowFilename fs)
  | .nil => by simp [zipRangeLog, zipRange, LogOK, Refused_nil, Early_nil]
  | .unopened name err rest => by
    rw [zipRangeLog, zipRange]
    exact LogOK_skip table AllowFilename name _ _ (zipRangeLog_ok table AllowFilename rest)
  | .opened name slurp rerr rest => by
    rw [zipRangeLog, zipRange]
    exact LogOK_entry table AllowFilename name _ _ _ _
      (AllowPayloadLog_ok table AllowFilename slurp) (zipRangeLog_ok table AllowFilename rest)
theorem rarWalkLog_ok (table : Char → Char) (AllowFilename : String → Bool) :
    ∀ z : RarReader, LogOK table AllowFilename (rarWalkLog table AllowFilename z)
      (rarWalk table AllowFilename z)
  | .fail err => by simp [rarWalkLog, rarWalk, LogOK, Refused_nil, Early_nil]
  | .volume it => by
    rw [rarWalkLog, rarWalk]
    exact rarLoopLog_ok table AllowFilename it
theorem rarLoopLog_ok (table : Char → Char) (AllowFilename : String → Bool) :
    ∀ t : RarIter, LogOK table AllowFilename (rarLoopLog table AllowFilename t)
      (rarLoop table AllowFilename t)
  | .eof => by simp [rarLoopLog, rarLoop, LogOK, Refused_nil, Early_nil]
  | .fail err => by simp [rarLoopLog, rarLoop, LogOK, Refused_nil, Early_nil]
  | .next name slurp (some e) rest => by
    rw [rarLoopLog, rarLoop]
    exact LogOK_skip table AllowFilename name _ _ (rarLoopLog_ok table AllowFilename rest)
  | .next name slurp none rest => by
    rw [rarLoopLog, rarLoop]
    exact LogOK_entry table AllowFilename name _ _ _ _
      (AllowPayloadLog_ok table AllowFilename slurp) (rarLoopLog_ok table AllowFilename rest)
end

/-! ## Dispatcher -/

theorem AllowPayload_unfold (table : Char → Char) (AllowFilename : String → Bool) (r : Stream) :
    AllowPayload table AllowFilename r =
      PayloadLoop [(seekStart 0, AllowTarPayload table AllowFilename r),
        (seekStart 0, AllowZipPayload table AllowFilename r),
        (seekStart 0, AllowRarPayload table AllowFilename r)] := by
  cases r
  rfl

theorem PayloadLoop_reference (a b c : Option GoError) :
    PayloadLoop [(none, a), (none, b), (none, c)] = dispatchReference [a, b, c] := by
  rcases a with _ | (_ | ma) <;> rcases b with _ | (_ | mb) <;> rcases c with _ | (_ | mc) <;>
    simp [PayloadLoop, dispatchReference, isVerdict, List.find?]

theorem PayloadLoop_nil_or_reject (a b c : Option GoError) :
    PayloadLoop [(none, a), (none, b), (none, c)] = none ∨
      PayloadLoop [(none, a), (none, b), (none, c)] = some .EPayloadNotAllowed := by
  rcases a with _ | (_ | ma) <;> rcases b with _ | (_ | mb) <;> rcases c with _ | (_ | mc) <;>
    simp [PayloadLoop]

theorem AllowPayload_nil_or_reject (table : Char → Char) (AllowFilename : String → Bool)
    (r : Stream) :
    AllowPayload table AllowFilename r = none ∨
      AllowPayload table AllowFilename r = some .EPayloadNotAllowed := by
  rw [AllowPayload_unfold, seekStart_zero]
  exact PayloadLoop_nil_or_reject _ _ _

/-- C5: `AllowPayload` is the reference dispatcher. Seeking to offset 0 never
fails; the result is the verdict (`nil` or `EPayloadNotAllowed`) of the first of
the walkers TAR, ZIP, RAR that returns one, and `nil` when all three return
another error; so the result is always `nil` or `EPayloadNotAllowed`; a stream
that no parser accepts (scenario E4) is admitted. -/
theorem C5_dispatcher_reference (table : Char → Char) (AllowFilename : String → Bool)
    (r : Stream) :
    seekStart 0 = none ∧
    AllowPayload table AllowFilename r =
      dispatchReference [AllowTarPayload table AllowFilename r,
        AllowZipPayload table AllowFilename r, AllowRarPayload table AllowFilename r] ∧
    (AllowPayload table AllowFilename r = none ∨
      AllowPayload table AllowFilename r = some .EPayloadNotAllowed) ∧
    AllowPayload table AllowFilename plainStream = none := by
  refine ⟨seekStart_zero, ?_, AllowPayload_nil_or_reject table AllowFilename r, rfl⟩
  rw [AllowPayload_unfold, seekStart_zero]
  exact PayloadLoop_reference _ _ _

/-! ## Rejection -/

/-- C1: if the walk visits, at any depth, an entry whose lowercased extension
the policy refuses, the top-level `AllowPayload` returns `EPayloadNotAllowed`, not
`nil`; the rejection is returned at once: every name visited before the last one
is allowed. -/
theorem C1_refused_visit_rejects (table : Char → Char) (AllowFilename : String → Bool)
    (r : Stream)
    (h : ∃ n ∈ visited table AllowFilename r, AllowFilename (Ext (ToLower table n)) = false) :
    AllowPayload table AllowFilename r = some .EPayloadNotAllowed ∧
    AllowPayload table AllowFilename r ≠ none ∧
    ∀ n ∈ (visited table AllowFilename r).dropLast,
      AllowFilename (Ext (ToLower table n)) = true := by
  obtain ⟨h1, h2, h3⟩ := AllowPayloadLog_ok table AllowFilename r
  have hr : AllowPayload table AllowFilename r = some .EPayloadNotAllowed := by
    rw [← h1]
    exact h2.mpr h
  refine ⟨hr, by simp [hr], ?_⟩
  intro n hn
  cases hb : AllowFilename (Ext (ToLower table n))
  · exact absurd ⟨n, hn, hb⟩ h3
  · rfl

/-- Scenario E3 for C1: a TAR holding `inner.zip` which holds `payload.JS`. -/
theorem C1_refused_visit_rejects_witness :
    (∃ n ∈ visited id scenarioPolicy scenarioE3, scenarioPolicy (Ext (ToLower id n)) = false) ∧
    AllowPayload id scenarioPolicy scenarioE3 = some .EPayloadNotAllowed ∧
    AllowPayload id scenarioPolicy scenarioE3 ≠ none ∧
    ∀ n ∈ (visited id scenarioPolicy scenarioE3).dropLast,
      scenarioPolicy (Ext (ToLower id n)) = true :=
  ⟨⟨"payload.JS", by decide, by decide⟩,
    C1_refused_visit_rejects id scenarioPolicy scenarioE3 ⟨"payload.JS", by decide, by decide⟩⟩

/-- C10: if `AllowPayload` returns `EPayloadNotAllowed`, some entry visited during
the call, at some depth, has a name whose lowercased extension the policy
refuses. -/
theorem C10_rejection_sound (table : Char → Char) (AllowFilename : String → Bool)
    (r : Stream) (h : AllowPayload table AllowFilename r = some .EPayloadNotAllowed) :
    ∃ n ∈ visited table AllowFilename r, AllowFilename (Ext (ToLower table n)) = false := by
  obtain ⟨h1, h2, _⟩ := AllowPayloadLog_ok table AllowFilename r
  rw [← h1] at h
  exact h2.mp h

/-- A rejected ZIP for C10: the refused name is `setup.exe`. -/
theorem C10_rejection_sound_witness :
    AllowPayload id scenarioPolicy zipBadChecksum = some .EPayloadNotAllowed ∧
    ∃ n ∈ visited id scenarioPolicy zipBadChecksum,
      scenarioPolicy (Ext (ToLower id n)) = false :=
  ⟨by decide, C10_rejection_sound id scenarioPolicy zipBadChecksum (by decide)⟩

/-- C4: under a policy that allows every extension, `AllowPayload` returns `nil`
on every stream, and so never `EPayloadNotAllowed`. -/
theorem C4_permissive_policy_admits (table : Char → Char) (AllowFilename : String → Bool)
    (r : Stream) (h : ∀ ext : String, AllowFilename ext = true) :
    AllowPayload table AllowFilename r = none ∧
    AllowPayload table AllowFilename r ≠ some .EPayloadNotAllowed := by
  have hne : AllowPayload table AllowFilename r ≠ some .EPayloadNotAllowed := by
    intro hr
    obtain ⟨h1, h2, _⟩ := AllowPayloadLog_ok table AllowFilename r
    rw [← h1] at hr
    obtain ⟨n, _, hn⟩ := h2.mp hr
    rw [h] at hn
    exact Bool.noConfusion hn
  rcases AllowPayload_nil_or_reject table AllowFilename r with h0 | h0
  · exact ⟨h0, hne⟩
  · exact absurd h0 hne

/-- The permissive policy on scenario E3. -/
theorem C4_permissive_policy_admits_witness :
    (∀ ext : String, (fun _ : String => true) ext = true) ∧
    AllowPayload id (fun _ => true) scenarioE3 = none ∧
    AllowPayload id (fun _ => true) scenarioE3 ≠ some .EPayloadNotAllowed :=
  ⟨fun _ => rfl, C4_permissive_policy_admits id (fun _ => true) scenarioE3 (fun _ => rfl)⟩

/-! ## Entries in the dispatcher's path -/

theorem tarFails_tarLoop (table : Char → Char) (AllowFilename : String → Bool) :
    ∀ t : TarReader, tarFails t = true → tarLoop table AllowFilename t ≠ none
  | .eof => by simp [tarFails]
  | .fail err => by simp [tarLoop]
  | .next name slurp (some e) rest => by
    intro h
    have ih := tarFails_tarLoop table AllowFilename rest (by simpa [tarFails] using h)
    rw [tarLoop]
    cases hp : AllowFilename (Ext (ToLower table name)) <;> simp [ih]
  | .next name slurp none rest => by
    intro h
    have ih := tarFails_tarLoop table AllowFilename rest (by simpa [tarFails] using h)
    rw [tarLoop]
    cases hp : AllowFilename (Ext (ToLower table name))
    · simp
    · cases hs : AllowPayload table AllowFilename slurp <;> simp [ih]

theorem zipFails_zipWalk (table : Char → Char) (AllowFilename : String → Bool) :
    ∀ z : ZipReader, zipFails z = true → zipWalk table AllowFilename z ≠ none
  | .fail err => by simp [zipWalk]
  | .files fs => by simp [zipFails]

theorem path_dispatch (table : Char → Char) (AllowFilename : String → Bool)
    (a b c : Option GoError) (pa pb pc : List String) (tf zf : Bool)
    (ha : Refused table AllowFilename pa → a = some .EPayloadNotAllowed)
    (hb : Refused table AllowFilename pb → b = some .EPayloadNotAllowed)
    (hc : Refused table AllowFilename pc → c = some .EPayloadNotAllowed)
    (hta : tf = true → a ≠ none) (hzb : zf = true → b ≠ none)
    (h : Refused table AllowFilename
      (pa ++ (if tf then pb ++ (if zf then pc else []) else []))) :
    PayloadLoop [(none, a), (none, b), (none, c)] = some .EPayloadNotAllowed := by
  rw [Refused_append] at h
  rcases h with h | h
  · simp [ha h, PayloadLoop]
  · cases tf with
    | false => simp [Refused_nil] at h
    | true =>
      rw [if_pos rfl, Refused_append] at h
      rcases a with _ | (_ | ma)
      · exact absurd rfl (hta rfl)
      · simp [PayloadLoop]
      · rcases h with h | h
        · simp [hb h, PayloadLoop]
        · cases zf with
          | false => simp [Refused_nil] at h
          | true =>
            rw [if_pos rfl] at h
            rcases b with _ | (_ | mb)
            · exact absurd rfl (hzb rfl)
            · simp [PayloadLoop]
            · simp [hc h, PayloadLoop]

theorem path_entry (table : Char → Char) (AllowFilename : String → Bool) (name : String)
    (ps pr : List String) (es er : Option GoError) :
    (Refused table AllowFilename ps → es = some .EPayloadNotAllowed) →
    (Refused table AllowFilename pr → er = some .EPayloadNotAllowed) →
    (es = none ∨ es = some .EPayloadNotAllowed) →
    Refused table AllowFilename (name :: (ps ++ pr)) →
    (if !AllowFilename (Ext (ToLower table name)) then some GoError.EPayloadNotAllowed
     else
      match es with
      | some err => some err
      | none => er) = some .EPayloadNotAllowed := by
  intro hs hr hes h
  rw [Refused_cons, Refused_append] at h
  cases hp : AllowFilename (Ext (ToLower table name))
  · simp
  · rcases hes with hes | hes
    · subst hes
      rcases h with h | h | h
      · rw [hp] at h
        exact Bool.noConfusion h
      · exact Option.noConfusion (hs h)
      · simp [hr h]
    · subst hes
      simp

theorem path_skip (table : Char → Char) (AllowFilename : String → Bool) (name : String)
    (pr : List String) (er : Option GoError) :
    (Refused table AllowFilename pr → er = some .EPayloadNotAllowed) →
    Refused table AllowFilename (name :: pr) →
    (if !AllowFilename (Ext (ToLower table name)) then some GoError.EPayloadNotAllowed
     else er) = some .EPayloadNotAllowed := by
  intro hr h
  rw [Refused_cons] at h
  cases hp : AllowFilename (Ext (ToLower table name))
  · simp
  · rcases h with h | h
    · rw [hp] at h
      exact Bool.noConfusion h
    · simp [hr h]

mutual
theorem pathNames_rejects (table : Char → Char) (AllowFilename : String → Bool) :
    ∀ s : Stream, Refused table AllowFilename (pathNames s) →
      AllowPayload table AllowFilename s = some .EPayloadNotAllowed
  | .mk tar zip rar => by
    intro h
    rw [AllowPayload, seekStart_zero]
    rw [pathNames] at h
    exact path_dispatch table AllowFilename _ _ _ _ _ _ _ _
      (tarPath_rejects table AllowFilename tar) (zipPath_rejects table AllowFilename zip)
      (rarPath_rejects table AllowFilename rar) (tarFails_tarLoop table AllowFilename tar)
      (zipFails_zipWalk table AllowFilename zip) h
theorem tarPath_rejects (table : Char → Char) (AllowFilename : String → Bool) :
    ∀ t : TarReader, Refused table AllowFilename (tarPath t) →
      tarLoop table AllowFilename t = some .EPayloadNotAllowed
  | .eof => by simp [tarPath, Refused_nil]
  | .fail err => by simp [tarPath, Refused_nil]
  | .next name slurp (some e) rest => by
    rw [tarPath, tarLoop]
    exact path_skip table AllowFilename name _ _ (tarPath_rejects table AllowFilename rest)
  | .next name slurp none rest => by
    rw [tarPath, tarLoop]
    exact path_entry table AllowFilename name _ _ _ _
      (pathNames_rejects table AllowFilename slurp) (tarPath_rejects table AllowFilename rest)
      (AllowPayload_nil_or_reject table AllowFilename slurp)
theorem zipPath_rejects (table : Char → Char) (AllowFilename : String → Bool) :
    ∀ z : ZipReader, Refused table AllowFilename (zipPath z) →
      zipWalk table AllowFilename z = some .EPayloadNotAllowed
  | .fail err => by simp [zipPath, Refused_nil]
  | .files fs => by
    rw [zipPath, zipWalk]
    exact zipFilesPath_rejects table AllowFilename fs
theorem zipFilesPath_rejects (table : Char → Char) (AllowFilename : String → Bool) :
    ∀ fs : ZipFiles, Refused table AllowFilename (zipFilesPath fs) →
      zipRange table AllowFilename fs = some .EPayloadNotAllowed
  | .nil => by simp [zipFilesPath, Refused_nil]
  | .unopened name err rest => by
    rw [zipFilesPath, zipRange]
    exact path_skip table AllowFilename name _ _ (zipFilesPath_rejects table AllowFilename rest)
  | .opened name slurp (some e) rest => by
    rw [zipFilesPath, zipRange]
    intro h
    refine path_entry table AllowFilename name [] _ _ _ ?_
      (zipFilesPath_rejects table AllowFilename rest)
      (AllowPayload_nil_or_reject table AllowFilename slurp) (by simpa using h)
    intro h0
    exact absurd h0 (by simp [Refused_nil])
  | .opened name slurp none rest => by
    rw [zipFilesPath, zipRange]
    exact path_entry table AllowFilename name _ _ _ _
      (pathNames_rejects table AllowFilename slurp)
      (zipFilesPath_rejects table AllowFilename rest)
      (AllowPayload_nil_or_reject table AllowFilename slurp)
theorem rarPath_rejects (table : Char → Char) (AllowFilename : String → Bool) :
    ∀ z : RarReader, Refused table AllowFilename (rarPath z) →
      rarWalk table AllowFilename z = some .EPayloadNotAllowed
  | .fail err => by simp [rarPath, Refused_nil]
  | .volume it => by
    rw [rarPath, rarWalk]
    exact rarIterPath_rejects table AllowFilename it
theorem rarIterPath_rejects (table : Char → Char) (AllowFilename : String → Bool) :
    ∀ t : RarIter, Refused table AllowFilename (rarIterPath t) →
      rarLoop table AllowFilename t = some .EPayloadNotAllowed
  | .eof => by simp [rarIterPath, Refused_nil]
  | .fail err => by simp [rarIterPath, Refused_nil]
  | .next name slurp (some e) rest => by
    rw [rarIterPath, rarLoop]
    exact path_skip table AllowFilename name _ _ (rarIterPath_rejects table AllowFilename rest)
  | .next name slurp none rest => by
    rw [rarIterPath, rarLoop]
    exact path_entry table AllowFilename name _ _ _ _
      (pathNames_rejects table AllowFilename slurp)
      (rarIterPath_rejects table AllowFilename rest)
      (AllowPayload_nil_or_reject table AllowFilename slurp)
end

theorem mem_dispatch_path (n : String) (pa pb pc ea eb ec : List String) (tf zf : Bool)
    (ha : n ∈ pa → n ∈ ea) (hb : n ∈ pb → n ∈ eb) (hc : n ∈ pc → n ∈ ec)
    (h : n ∈ pa ++ (if tf then pb ++ (if zf then pc else []) else [])) :
    n ∈ ea ++ (eb ++ ec) := by
  rw [List.mem_append] at h
  rw [List.mem_append, List.mem_append]
  rcases h with h | h
  · exact Or.inl (ha h)
  · cases tf with
    | false => simp at h
    | true =>
      rw [if_pos rfl, List.mem_append] at h
      rcases h with h | h
      · exact Or.inr (Or.inl (hb h))
      · cases zf with
        | false => simp at h
        | true =>
          rw [if_pos rfl] at h
          exact Or.inr (Or.inr (hc h))

theorem mem_entry_path (n name : String) (ps pr es er : List String)
    (hs : n ∈ ps → n ∈ es) (hr : n ∈ pr → n ∈ er) (h : n ∈ name :: (ps ++ pr)) :
    n ∈ name :: (es ++ er) := by
  rw [List.mem_cons, List.mem_append] at h
  rw [List.mem_cons, List.mem_append]
  rcases h with h | h | h
  · exact Or.inl h
  · exact Or.inr (Or.inl (hs h))
  · exact Or.inr (Or.inr (hr h))

theorem mem_skip_path (n name : String) (pr er : List String)
    (hr : n ∈ pr → n ∈ er) (h : n ∈ name :: pr) : n ∈ name :: er := by
  rw [List.mem_cons] at h
  rw [List.mem_cons]
  rcases h with h | h
  · exact Or.inl h
  · exact Or.inr (hr h)

mutual
theorem pathNames_entryNames (n : String) :
    ∀ s : Stream, n ∈ pathNames s → n ∈ entryNames s
  | .mk tar zip rar => by
    rw [pathNames, entryNames]
    exact mem_dispatch_path n _ _ _ _ _ _ _ _ (tarPath_tarNames n tar) (zipPath_zipNames n zip)
      (rarPath_rarNames n rar)
theorem tarPath_tarNames (n : String) :
    ∀ t : TarReader, n ∈ tarPath t → n ∈ tarNames t
  | .eof => by simp [tarPath]
  | .fail err => by simp [tarPath]
  | .next name slurp (some e) rest => by
    rw [tarPath, tarNames]
    exact mem_skip_path n name _ _ (tarPath_tarNames n rest)
  | .next name slurp none rest => by
    rw [tarPath, tarNames]
    exact mem_entry_path n name _ _ _ _ (pathNames_entryNames n slurp) (tarPath_tarNames n rest)
theorem zipPath_zipNames (n : String) :
    ∀ z : ZipReader, n ∈ zipPath z → n ∈ zipNames z
  | .fail err => by simp [zipPath]
  | .files fs => by
    rw [zipPath, zipNames]
    exact zipFilesPath_zipFileNames n fs
theorem zipFilesPath_zipFileNames (n : String) :
    ∀ fs : ZipFiles, n ∈ zipFilesPath fs → n ∈ zipFileNames fs
  | .nil => by simp [zipFilesPath]
  | .unopened name err rest => by
    rw [zipFilesPath, zipFileNames]
    exact mem_skip_path n name _ _ (zipFilesPath_zipFileNames n rest)
  | .opened name slurp (some e) rest => by
    rw [zipFilesPath, zipFileNames]
    exact mem_skip_path n name _ _ (zipFilesPath_zipFileNames n rest)
  | .opened name slurp none rest => by
    rw [zipFilesPath, zipFileNames]
    exact mem_entry_path n name _ _ _ _ (pathNames_entryNames n slurp)
      (zipFilesPath_zipFileNames n rest)
theorem rarPath_rarNames (n : String) :
    ∀ z : RarReader, n ∈ rarPath z → n ∈ rarNames z
  | .fail err => by simp [rarPath]
  | .volume it => by
    rw [rarPath, rarNames]
    exact rarIterPath_rarIterNames n it
theorem rarIterPath_rarIterNames (n : String) :
    ∀ t : RarIter, n ∈ rarIterPath t → n ∈ rarIterNames t
  | .eof => by simp [rarIterPath]
  | .fail err => by simp [rarIterPath]
  | .next name slurp (some e) rest => by
    rw [rarIterPath, rarIterNames]
    exact mem_skip_path n name _ _ (rarIterPath_rarIterNames n rest)
  | .next name slurp none rest => by
    rw [rarIterPath, rarIterNames]
    exact mem_entry_path n name _ _ _ _ (pathNames_entryNames n slurp)
      (rarIterPath_rarIterNames n rest)
end

/-- C2, as stated, fails: the ZIP parser yields the entry `setup.exe`, which the
policy refuses, but the TAR walker, run first, finds an archive without entries
and the stream is admitted. -/
theorem C2_counterexample :
    (∃ n ∈ entryNames tarZipPolyglot, scenarioPolicy (Ext (ToLower id n)) = false) ∧
    AllowPayload id scenarioPolicy tarZipPolyglot = none ∧
    AllowPayload id scenarioPolicy tarZipPolyglot ≠ some .EPayloadNotAllowed :=
  ⟨⟨"setup.exe", by decide, by decide⟩, by decide, by decide⟩

/-- C2, amended: if an entry in the dispatcher's path (an entry of the TAR parser;
of the ZIP parser when the TAR iterator ends in an error; of the RAR parser when
moreover `zip.NewReader` fails; or, in turn, such an entry of a body read
without error) has a name whose lowercased extension the policy refuses, then
`AllowPayload` returns `EPayloadNotAllowed`.  The entries in the path are among
the entries of the stream. -/
theorem C2_path_entry_rejects (table : Char → Char) (AllowFilename : String → Bool)
    (s : Stream)
    (h : ∃ n ∈ pathNames s, AllowFilename (Ext (ToLower table n)) = false) :
    AllowPayload table AllowFilename s = some .EPayloadNotAllowed ∧
    ∀ n ∈ pathNames s, n ∈ entryNames s :=
  ⟨pathNames_rejects table AllowFilename s h, fun n hn => pathNames_entryNames n s hn⟩

/-- Scenario E3 for C2: `payload.JS` is in the path. -/
theorem C2_path_entry_rejects_witness :
    (∃ n ∈ pathNames scenarioE3, scenarioPolicy (Ext (ToLower id n)) = false) ∧
    AllowPayload id scenarioPolicy scenarioE3 = some .EPayloadNotAllowed ∧
    ∀ n ∈ pathNames scenarioE3, n ∈ entryNames scenarioE3 :=
  ⟨⟨"payload.JS", by decide, by decide⟩,
    C2_path_entry_rejects id scenarioPolicy scenarioE3 ⟨"payload.JS", by decide, by decide⟩⟩

/-! ## Nesting depth -/

theorem AllowPayload_emptyArchive (table : Char → Char) (AllowFilename : String → Bool)
    (f : Format) : AllowPayload table AllowFilename (emptyArchive f) = none := by
  cases f <;> rfl

theorem AllowPayload_wrap (table : Char → Char) (AllowFilename : String → Bool) (f : Format)
    (name : String) (inner : Stream)
    (hn : AllowFilename (Ext (ToLower table name)) = true) :
    AllowPayload table AllowFilename (wrap f name inner) =
      AllowPayload table AllowFilename inner := by
  rcases AllowPayload_nil_or_reject table AllowFilename inner with h | h <;>
    cases f <;>
    simp [wrap, AllowPayload, tarLoop, zipWalk, zipRange, rarWalk, rarLoop, PayloadLoop,
      seekStart_zero, hn, h]

theorem AllowPayload_nest (table : Char → Char) (AllowFilename : String → Bool)
    (core : Stream) :
    ∀ layers : List (Format × String),
      (∀ l ∈ layers, AllowFilename (Ext (ToLower table l.2)) = true) →
      AllowPayload table AllowFilename (nest layers core) =
        AllowPayload table AllowFilename core
  | [], _ => rfl
  | (f, name) :: layers, h => by
    rw [nest, AllowPayload_wrap table AllowFilename f name _ (h (f, name) (List.mem_cons_self _ _))]
    exact AllowPayload_nest table AllowFilename core layers
      (fun l hl => h l (List.mem_cons_of_mem _ hl))

theorem nestedZips_admitted (n : Nat) :
    AllowPayload id scenarioPolicy (nestedZips n) = none := by
  unfold nestedZips
  rw [AllowPayload_nest id scenarioPolicy (emptyArchive .ZIP)]
  · rfl
  · intro l hl
    rw [List.eq_of_mem_replicate hl]
    decide

/-- C3, as stated, fails: 9, 10 and 64 ZIP archives nested in one another (8, 9
and 63 levels of nesting; 64 archives is scenario E6) are admitted, not rejected. -/
theorem C3_counterexample :
    AllowPayload id scenarioPolicy (nestedZips 8) = none ∧
    AllowPayload id scenarioPolicy (nestedZips 9) ≠ some .EPayloadNotAllowed ∧
    AllowPayload id scenarioPolicy (nestedZips 63) ≠ some .EPayloadNotAllowed := by
  refine ⟨nestedZips_admitted 8, ?_, ?_⟩
  · rw [nestedZips_admitted 9]
    exact fun h => Option.noConfusion h
  · rw [nestedZips_admitted 63]
    exact fun h => Option.noConfusion h

/-- C3, amended: the dispatcher has no recursion depth cap.  For every stream made
of archives (TAR, ZIP or RAR, in any mix) nested in one another around an empty
archive, with all entry names allowed, `AllowPayload` returns `nil` whatever the
number of layers. -/
theorem C3_no_depth_cap (table : Char → Char) (AllowFilename : String → Bool)
    (layers : List (Format × String)) (f : Format)
    (h : ∀ l ∈ layers, AllowFilename (Ext (ToLower table l.2)) = true) :
    AllowPayload table AllowFilename (nest layers (emptyArchive f)) = none := by
  rw [AllowPayload_nest table AllowFilename (emptyArchive f) layers h]
  exact AllowPayload_emptyArchive table AllowFilename f

/-- Three layers for C3: a RAR in a TAR in a ZIP, around an empty TAR. -/
theorem C3_no_depth_cap_witness :
    (∀ l ∈ [(Format.ZIP, "a.tar"), (Format.TAR, "b.rar"), (Format.RAR, "c.tar")],
      scenarioPolicy (Ext (ToLower id l.2)) = true) ∧
    AllowPayload id scenarioPolicy
      (nest [(Format.ZIP, "a.tar"), (Format.TAR, "b.rar"), (Format.RAR, "c.tar")]
        (emptyArchive .TAR)) = none :=
  ⟨by decide, C3_no_depth_cap id scenarioPolicy _ .TAR (by decide)⟩

/-! ## Entries whose body cannot be read -/

/-- C6 on the code: a ZIP entry that opens but whose `ReadAll` fails is not
skipped.  The bytes read before the error go to `AllowPayload`, and the TAR found
in them, holding `setup.exe`, makes the ZIP walker and the dispatcher reject;
skipping the entry would leave the empty rest of `reader.File`, which is admitted,
and the TAR walker does skip the same entry. -/
theorem C6_zip_read_error_not_skipped :
    AllowZipPayload id scenarioPolicy zipBadChecksum = some .EPayloadNotAllowed ∧
    AllowPayload id scenarioPolicy zipBadChecksum = some .EPayloadNotAllowed ∧
    zipRange id scenarioPolicy .nil = none ∧
    AllowTarPayload id scenarioPolicy tarBadRead = none := by
  decide

theorem tarLoop_skip (table : Char → Char) (AllowFilename : String → Bool) (name : String)
    (slurp : Stream) (e : String) (rest : TarReader)
    (hn : AllowFilename (Ext (ToLower table name)) = true) :
    tarLoop table AllowFilename (.next name slurp (some e) rest) =
      tarLoop table AllowFilename rest := by
  simp [tarLoop, hn]

theorem rarLoop_skip (table : Char → Char) (AllowFilename : String → Bool) (name : String)
    (slurp : Stream) (e : String) (rest : RarIter)
    (hn : AllowFilename (Ext (ToLower table name)) = true) :
    rarLoop table AllowFilename (.next name slurp (some e) rest) =
      rarLoop table AllowFilename rest := by
  simp [rarLoop, hn]

theorem zipRange_skip_unopened (table : Char → Char) (AllowFilename : String → Bool)
    (name : String) (e : String) (rest : ZipFiles)
    (hn : AllowFilename (Ext (ToLower table name)) = true) :
    zipRange table AllowFilename (.unopened name e rest) = zipRange table AllowFilename rest := by
  simp [zipRange, hn]

/-! ## End of the iteration -/

theorem tarLoop_tarEntries (table : Char → Char) (AllowFilename : String → Bool)
    (last : TarReader) :
    ∀ es : List (String × Stream × Option String),
      (∀ e ∈ es, AllowFilename (Ext (ToLower table e.1)) = true ∧
        (e.2.2 = none → AllowPayload table AllowFilename e.2.1 ≠ some .EPayloadNotAllowed)) →
      tarLoop table AllowFilename (tarEntries es last) = tarLoop table AllowFilename last
  | [], _ => rfl
  | (name, slurp, rerr) :: es, h => by
    have ih := tarLoop_tarEntries table AllowFilename last es
      (fun e he => h e (List.mem_cons_of_mem _ he))
    obtain ⟨hn, hs⟩ := h (name, slurp, rerr) (List.mem_cons_self _ _)
    simp only at hn hs
    cases rerr with
    | some e => simp [tarEntries, tarLoop, hn, ih]
    | none =>
      rcases AllowPayload_nil_or_reject table AllowFilename slurp with h0 | h0
      · simp [tarEntries, tarLoop, hn, h0, ih]
      · exact absurd h0 (hs rfl)

theorem rarLoop_rarEntries (table : Char → Char) (AllowFilename : String → Bool)
    (last : RarIter) :
    ∀ es : List (String × Stream × Option String),
      (∀ e ∈ es, AllowFilename (Ext (ToLower table e.1)) = true ∧
        (e.2.2 = none → AllowPayload table AllowFilename e.2.1 ≠ some .EPayloadNotAllowed)) →
      rarLoop table AllowFilename (rarEntries es last) = rarLoop table AllowFilename last
  | [], _ => rfl
  | (name, slurp, rerr) :: es, h => by
    have ih := rarLoop_rarEntries table AllowFilename last es
      (fun e he => h e (List.mem_cons_of_mem _ he))
    obtain ⟨hn, hs⟩ := h (name, slurp, rerr) (List.mem_cons_self _ _)
    simp only at hn hs
    cases rerr with
    | some e => simp [rarEntries, rarLoop, hn, ih]
    | none =>
      rcases AllowPayload_nil_or_reject table AllowFilename slurp with h0 | h0
      · simp [rarEntries, rarLoop, hn, h0, ih]
      · exact absurd h0 (hs rfl)

/-- C9: when the TAR or RAR iterator yields any number of entries, each with an
allowed extension and none with a nested rejection, and then fails with a parse
error, the walker returns that error (neither `nil` nor `EPayloadNotAllowed`);
when it then signals `io.EOF`, the walker returns `nil`, also with no entry. -/
theorem C9_streaming_walker_end (table : Char → Char) (AllowFilename : String → Bool)
    (es : List (String × Stream × Option String)) (err : String)
    (tar : TarReader) (zip : ZipReader) (rar : RarReader)
    (h : ∀ e ∈ es, AllowFilename (Ext (ToLower table e.1)) = true ∧
      (e.2.2 = none → AllowPayload table AllowFilename e.2.1 ≠ some .EPayloadNotAllowed)) :
    AllowTarPayload table AllowFilename (.mk (tarEntries es (.fail err)) zip rar) =
      some (.other err) ∧
    AllowTarPayload table AllowFilename (.mk (tarEntries es .eof) zip rar) = none ∧
    AllowRarPayload table AllowFilename (.mk tar zip (.volume (rarEntries es (.fail err)))) =
      some (.other err) ∧
    AllowRarPayload table AllowFilename (.mk tar zip (.volume (rarEntries es .eof))) = none ∧
    AllowTarPayload table AllowFilename (.mk (tarEntries [] .eof) zip rar) = none ∧
    AllowRarPayload table AllowFilename (.mk tar zip (.volume (rarEntries [] .eof))) = none := by
  refine ⟨?_, ?_, ?_, ?_, rfl, rfl⟩
  · simp [AllowTarPayload, tarNewReader, tarLoop_tarEntries table AllowFilename _ es h, tarLoop]
  · simp [AllowTarPayload, tarNewReader, tarLoop_tarEntries table AllowFilename _ es h, tarLoop]
  · simp [AllowRarPayload, rarNewReader, rarWalk, rarLoop_rarEntries table AllowFilename _ es h,
      rarLoop]
  · simp [AllowRarPayload, rarNewReader, rarWalk, rarLoop_rarEntries table AllowFilename _ es h,
      rarLoop]

/-- Two entries for C9: a readable text file and a file whose read fails. -/
theorem C9_streaming_walker_end_witness :
    (∀ e ∈ [("readme.txt", plainStream, (none : Option String)),
        ("image.png", plainStream, some "unexpected EOF")],
      scenarioPolicy (Ext (ToLower id e.1)) = true ∧
      (e.2.2 = none → AllowPayload id scenarioPolicy e.2.1 ≠ some .EPayloadNotAllowed)) ∧
    AllowTarPayload id scenarioPolicy
      (.mk (tarEntries [("readme.txt", plainStream, none),
        ("image.png", plainStream, some "unexpected EOF")] (.fail "archive/tar: invalid tar header"))
        (.fail "zip: not a valid zip file") (.fail "rardecode: RAR signature not found")) =
      some (.other "archive/tar: invalid tar header") :=
  ⟨by decide,
    (C9_streaming_walker_end id scenarioPolicy
      [("readme.txt", plainStream, none), ("image.png", plainStream, some "unexpected EOF")]
      "archive/tar: invalid tar header" .eof (.fail "zip: not a valid zip file")
      (.fail "rardecode: RAR signature not found") (by decide)).1⟩

/-! ## Extension of a name -/

/-- Closed form of `extLoop` on a path split at the loop index: the result is
read off the part before the index, scanned backwards. -/
theorem extLoop_append (pre : List Char) :
    ∀ rest : List Char,
      extLoop (pre ++ rest) pre.length =
        if '.' ∈ pre.reverse.takeWhile (fun c => c != '/') then
          '.' :: (((pre.reverse.takeWhile (fun c => c != '/')).takeWhile
            (fun c => c != '.')).reverse ++ rest)
        else [] := by
  induction pre using List.reverseRecOn with
  | nil => intro rest; simp [extLoop]
  | append_singleton p c ih =>
    intro rest
    have happ : p ++ [c] ++ rest = p ++ c :: rest := by simp
    have hidx : (p ++ c :: rest)[p.length]? = some c := by
      rw [List.getElem?_append_right (le_refl _)]
      simp
    have hdrop : (p ++ c :: rest).drop p.length = c :: rest := by
      simp
    have ih2 := ih (c :: rest)
    have hlen : (p ++ [c]).length = p.length + 1 := by simp
    rw [hlen, happ, extLoop, hidx, hdrop, ih2]
    by_cases h1 : c = '/'
    · subst h1
      simp
    · by_cases h2 : c = '.'
      · subst h2
        simp
      · have h2' : ¬ ('.' = c) := fun h => h2 h.symm
        simp [h1, h2, h2', List.takeWhile_cons]

theorem Ext_eq_extension_of (name : String) : Ext name = extension_of name := by
  have h := extLoop_append name.data []
  simp only [List.append_nil] at h
  unfold Ext extension_of finalComponent
  rw [h]
  simp only [List.mem_reverse, List.reverse_reverse]
  split <;> rfl

theorem Ext_ends_in_dot (name : String) : Ext (name ++ ".") = "." := by
  have hd : (name ++ ".").data = name.data ++ ['.'] := by
    rw [String.data_append]
  have h := extLoop_append (name.data ++ ['.']) []
  simp only [List.append_nil] at h
  unfold Ext
  rw [hd, h]
  simp

theorem ofNat_shift_ne (n : Nat) (h1 : 65 ≤ n) (h2 : n ≤ 90) :
    Char.ofNat (n + 32) ≠ '.' ∧ Char.ofNat (n + 32) ≠ '/' := by
  interval_cases n <;> decide

theorem unicodeToLower_dot (table : Char → Char)
    (h : ∀ c : Char, 0x7F < c.toNat → table c ≠ '.' ∧ table c ≠ '/') (c : Char) :
    unicodeToLower table c = '.' ↔ c = '.' := by
  unfold unicodeToLower
  by_cases ha : c.toNat ≤ 0x7F
  · rw [if_pos ha]
    by_cases hu : 'A'.toNat ≤ c.toNat ∧ c.toNat ≤ 'Z'.toNat
    · rw [if_pos hu]
      have e1 : 'A'.toNat = 65 := rfl
      have e2 : 'Z'.toNat = 90 := rfl
      have e3 : 'a'.toNat - 'A'.toNat = 32 := rfl
      rw [e1, e2] at hu
      rw [e3]
      constructor
      · intro hc
        exact absurd hc (ofNat_shift_ne c.toNat hu.1 hu.2).1
      · intro hc
        subst hc
        exact absurd hu.1 (by decide)
    · rw [if_neg hu]
  · rw [if_neg ha]
    constructor
    · intro hc
      exact absurd hc (h c (by omega)).1
    · intro hc
      subst hc
      exact absurd (show ('.' : Char).toNat ≤ 0x7F by decide) ha

theorem unicodeToLower_slash (table : Char → Char)
    (h : ∀ c : Char, 0x7F < c.toNat → table c ≠ '.' ∧ table c ≠ '/') (c : Char) :
    unicodeToLower table c = '/' ↔ c = '/' := by
  unfold unicodeToLower
  by_cases ha : c.toNat ≤ 0x7F
  · rw [if_pos ha]
    by_cases hu : 'A'.toNat ≤ c.toNat ∧ c.toNat ≤ 'Z'.toNat
    · rw [if_pos hu]
      have e1 : 'A'.toNat = 65 := rfl
      have e2 : 'Z'.toNat = 90 := rfl
      have e3 : 'a'.toNat - 'A'.toNat = 32 := rfl
      rw [e1, e2] at hu
      rw [e3]
      constructor
      · intro hc
        exact absurd hc (ofNat_shift_ne c.toNat hu.1 hu.2).2
      · intro hc
        subst hc
        exact absurd hu.1 (by decide)
    · rw [if_neg hu]
  · rw [if_neg ha]
    constructor
    · intro hc
      exact absurd hc (h c (by omega)).2
    · intro hc
      subst hc
      exact absurd (show ('/' : Char).toNat ≤ 0x7F by decide) ha

theorem extLoop_map (f : Char → Char) (hdot : ∀ c, f c = '.' ↔ c = '.')
    (hsl : ∀ c, f c = '/' ↔ c = '/') (l : List Char) :
    ∀ i : Nat, extLoop (l.map f) i = (extLoop l i).map f
  | 0 => rfl
  | i + 1 => by
    have ih := extLoop_map f hdot hsl l i
    rw [extLoop, extLoop, List.getElem?_map, ih]
    cases hi : l[i]? with
    | none => simp
    | some c =>
      by_cases h1 : c = '/'
      · subst h1
        simp [(hsl '/').mpr rfl]
      · by_cases h2 : c = '.'
        · subst h2
          simp [(hdot '.').mpr rfl, (hsl '.')]
        · have h1' : ¬ f c = '/' := fun h => h1 ((hsl c).mp h)
          have h2' : ¬ f c = '.' := fun h => h2 ((hdot c).mp h)
          simp [h1, h2, h1', h2']

theorem Ext_ToLower (table : Char → Char)
    (h : ∀ c : Char, 0x7F < c.toNat → table c ≠ '.' ∧ table c ≠ '/') (name : String) :
    Ext (ToLower table name) = ToLower table (Ext name) := by
  unfold Ext ToLower
  simp only [List.length_map]
  rw [extLoop_map (unicodeToLower table) (unicodeToLower_dot table h)
    (unicodeToLower_slash table h)]

/-- C8: `filepath.Ext`, which the walkers apply to the lowercased name, is the
spec's `extension_of`: the suffix of the final path component from its last `.`
on, or empty; dots in directory components are ignored, the empty name has the
empty extension, and a name that ends in `.` has the extension `.`. -/
theorem C8_extension_of_name (table : Char → Char) (name : String) :
    Ext name = extension_of name ∧
    Ext (ToLower table name) = extension_of (ToLower table name) ∧
    Ext "a.exe/readme" = "" ∧ Ext (ToLower table "a.exe/readme") = "" ∧
    Ext "" = "" ∧ Ext (ToLower table "") = "" ∧
    Ext (name ++ ".") = "." ∧ Ext (ToLower table name ++ ".") = "." :=
  ⟨Ext_eq_extension_of name, Ext_eq_extension_of _, by decide, rfl, by decide, rfl,
    Ext_ends_in_dot name, Ext_ends_in_dot _⟩

/-- C7: for a case table that maps no rune above `MaxASCII` to `.` or `/`, the
string the walkers pass to the policy, `Ext(ToLower(n))`, is the lowercased
extension of the name, `ToLower(Ext(n))`, which is the spec's
`lowercase(extension_of(n))`. -/
theorem C7_ext_of_lower_is_lower_of_ext (table : Char → Char) (name : String)
    (h : ∀ c : Char, 0x7F < c.toNat → table c ≠ '.' ∧ table c ≠ '/') :
    Ext (ToLower table name) = ToLower table (Ext name) ∧
    Ext (ToLower table name) = specExt table name := by
  refine ⟨Ext_ToLower table h name, ?_⟩
  unfold specExt
  rw [← Ext_eq_extension_of]
  exact Ext_ToLower table h name


/-- A case table that sends the Kelvin sign to `k`, as Unicode does, and leaves
every other rune alone. -/
theorem kelvinTable_ok :
    ∀ c : Char, 0x7F < c.toNat →
      (fun r : Char => if r = Char.ofNat 0x212A then 'k' else r) c ≠ '.' ∧
      (fun r : Char => if r = Char.ofNat 0x212A then 'k' else r) c ≠ '/' := by
  intro c hc
  by_cases hk : c = Char.ofNat 0x212A
  · simp only [hk, if_true]
    decide
  · simp only [hk, if_false]
    constructor
    · intro h
      subst h
      exact absurd hc (by decide)
    · intro h
      subst h
      exact absurd hc (by decide)

/-- The name `dir.d/Payload.JS` under the Kelvin case table, for C7. -/
theorem C7_ext_of_lower_is_lower_of_ext_witness :
    (∀ c : Char, 0x7F < c.toNat →
      (fun r : Char => if r = Char.ofNat 0x212A then 'k' else r) c ≠ '.' ∧
      (fun r : Char => if r = Char.ofNat 0x212A then 'k' else r) c ≠ '/') ∧
    Ext (ToLower (fun r : Char => if r = Char.ofNat 0x212A then 'k' else r) "dir.d/Payload.JS") =
      ToLower (fun r : Char => if r = Char.ofNat 0x212A then 'k' else r) (Ext "dir.d/Payload.JS") ∧
    Ext (ToLower (fun r : Char => if r = Char.ofNat 0x212A then 'k' else r) "dir.d/Payload.JS") =
      specExt (fun r : Char => if r = Char.ofNat 0x212A then 'k' else r) "dir.d/Payload.JS" :=
  ⟨kelvinTable_ok, C7_ext_of_lower_is_lower_of_ext _ "dir.d/Payload.JS" kelvinTable_ok⟩

end Extmilter
